import Mathlib

/-!
Verification development for the fluentui-icons-to-excalidraw repository.

The repository has two bodies of code relevant here:

* the SVG-to-Excalidraw conversion engine (PathParser, CurveFlattener,
  LoopClassifier, StyleMapper, SceneBuilder).  Its implementation files are
  not present in the source snapshot (only READMEs and changelogs mention
  them), so those components are modelled from the specification text, as
  marked by doc comments beginning with the words Modelled from the spec.
* the web application's build scripts and services (path compression,
  keyword compression, favorites service), whose JavaScript and TypeScript
  sources are present and are embedded directly.

All floating point arithmetic of the original code is embedded as exact
rational arithmetic.  Square roots are computed by an executable rational
surrogate that is exact whenever the radicand is a perfect square.
-/

set_option allowUnsafeReducibility true in
attribute [semireducible] Rat.add Rat.sub Rat.mul Rat.div Rat.neg Rat.inv
  Rat.normalize Rat.maybeNormalize

/-- A point in source coordinates.  The original code uses floating point
pairs; the embedding uses exact rationals. -/
structure Point where
  x : ℚ
  y : ℚ
deriving DecidableEq, Inhabited, Repr

def padd (a b : Point) : Point := ⟨a.x + b.x, a.y + b.y⟩

def psub (a b : Point) : Point := ⟨a.x - b.x, a.y - b.y⟩

def pscale (k : ℚ) (a : Point) : Point := ⟨k * a.x, k * a.y⟩

def midp (a b : Point) : Point := ⟨(a.x + b.x) / 2, (a.y + b.y) / 2⟩

def crossZ (a b : Point) : ℚ := a.x * b.y - a.y * b.x

def dotP (a b : Point) : ℚ := a.x * b.x + a.y * b.y

def sqDist (a b : Point) : ℚ := (a.x - b.x) ^ 2 + (a.y - b.y) ^ 2

/-- Absolute value on the rationals, written out so that it evaluates by
reduction. -/
def ratAbs (q : ℚ) : ℚ := if q < 0 then -q else q

/-- Newton iteration for the integer square root, on fuel so that it
evaluates by reduction; the guess decreases strictly every step, so fuel
n always suffices. -/
def natSqrtAux : ℕ → ℕ → ℕ → ℕ
  | 0, _, g => g
  | f + 1, n, g =>
    let next := (g + n / g) / 2
    if next < g then natSqrtAux f n next else g

/-- Integer square root (floor), Newton's method from above. -/
def natSqrt (n : ℕ) : ℕ :=
  if n ≤ 1 then n else natSqrtAux n n (n / 2)

/-- Executable rational square root surrogate for the floating point
square root used by the original engine: exact whenever the radicand
times the square of its denominator is a perfect square (in particular on
perfect squares of integers), and a floor approximation otherwise. -/
def ratSqrt (q : ℚ) : ℚ :=
  if q ≤ 0 then 0 else (natSqrt (q.num.toNat * q.den) : ℚ) / (q.den : ℚ)

/-! ## PathParser

Modelled from the spec (section 4.1): the parser implementation file is
absent from the snapshot.  The model tokenizes a path-data string into
absolute drawing commands, resolves relative coordinates against the
running current point, repeats the previous command letter for bare
numeric tuples, parses the two arc flags as single digits that may run
directly into the following number, and fails with a MalformedPathError
carrying the offending token and position on an unrecognized command
letter, a command missing required numeric arguments, or a non-numeric
token where a number is expected. -/

inductive ErrKind where
  | badCommand
  | missingArgs
  | badNumber
deriving DecidableEq, Repr

structure MalformedPathError where
  token : String
  pos : ℕ
  kind : ErrKind
deriving DecidableEq, Repr

/-- Absolute path commands, after resolving relative coordinates. -/
inductive PathCommand where
  | moveTo (p : Point)
  | lineTo (p : Point)
  | cubicTo (c1 c2 p : Point)
  | quadTo (c p : Point)
  | arcTo (rx ry rot : ℚ) (largeArc sweep : Bool) (p : Point)
  | closePath
deriving DecidableEq, Inhabited, Repr

def isSep (c : Char) : Bool :=
  c == ' ' || c == ',' || c == '\n' || c == '\t' || c == '\r'

def skipSeps : List Char → ℕ → List Char × ℕ
  | [], p => ([], p)
  | c :: cs, p => if isSep c then skipSeps cs (p + 1) else (c :: cs, p)

def digitsToNat (l : List Char) : ℕ :=
  l.foldl (fun a c => 10 * a + (c.toNat - 48)) 0

/-- Parse one signed decimal number.  The command letter is carried for
error reporting: a missing argument reports the command as the offending
token. -/
def parseNum (cmd : Char) (cs : List Char) (p0 : ℕ) :
    Except MalformedPathError (ℚ × List Char × ℕ) :=
  match skipSeps cs p0 with
  | ([], p1) => .error ⟨String.singleton cmd, p1, .missingArgs⟩
  | (c :: rest, p1) =>
    let signed : Bool := c == '-' || c == '+'
    let neg : Bool := c == '-'
    let body := if signed then rest else c :: rest
    let pBody := if signed then p1 + 1 else p1
    let ip := body.takeWhile Char.isDigit
    let afterInt := body.dropWhile Char.isDigit
    match afterInt with
    | '.' :: r2 =>
      let fp := r2.takeWhile Char.isDigit
      let rest3 := r2.dropWhile Char.isDigit
      if ip.isEmpty && fp.isEmpty then .error ⟨String.singleton c, p1, .badNumber⟩
      else
        let v : ℚ := (digitsToNat ip : ℚ) + (digitsToNat fp : ℚ) / (10 : ℚ) ^ fp.length
        .ok (if neg then -v else v, rest3, pBody + ip.length + 1 + fp.length)
    | _ =>
      if ip.isEmpty then .error ⟨String.singleton c, p1, .badNumber⟩
      else .ok (if neg then -(digitsToNat ip : ℚ) else (digitsToNat ip : ℚ),
        afterInt, pBody + ip.length)

/-- Parse one arc flag: a single digit 0 or 1, possibly running directly
into the following number (the source-format quirk named in the spec). -/
def parseFlag (cmd : Char) (cs : List Char) (p0 : ℕ) :
    Except MalformedPathError (Bool × List Char × ℕ) :=
  match skipSeps cs p0 with
  | ([], p1) => .error ⟨String.singleton cmd, p1, .missingArgs⟩
  | (c :: rest, p1) =>
    if c == '0' then .ok (false, rest, p1 + 1)
    else if c == '1' then .ok (true, rest, p1 + 1)
    else .error ⟨String.singleton c, p1, .badNumber⟩

/-- Main parser loop.  Recursion is on a fuel argument; each iteration
consumes at least one character or fails, so fuel equal to the input
length plus one is always sufficient and the fuel-exhausted branch is
unreachable from parsePath. -/
def parseLoop : ℕ → List Char → ℕ → Point → Point → Option Char →
    List PathCommand → Except MalformedPathError (List PathCommand)
  | 0, _, _, _, _, _, acc => .ok acc.reverse
  | fuel + 1, cs, p, cur, start, prev, acc =>
    match skipSeps cs p with
    | ([], _) => .ok acc.reverse
    | (c :: rest, p1) =>
      let isNum : Bool := c.isDigit || c == '-' || c == '+' || c == '.'
      let pick : Except MalformedPathError (Char × List Char × ℕ) :=
        if isNum then
          match prev with
          | some pc => .ok (pc, c :: rest, p1)
          | none => .error ⟨String.singleton c, p1, .badCommand⟩
        else .ok (c, rest, p1 + 1)
      do
      let (cmd, args, pA) ← pick
      match cmd with
      | 'M' | 'm' => do
        let (x, cs2, p2) ← parseNum cmd args pA
        let (y, cs3, p3) ← parseNum cmd cs2 p2
        let tgt : Point := if cmd == 'm' then ⟨cur.x + x, cur.y + y⟩ else ⟨x, y⟩
        parseLoop fuel cs3 p3 tgt tgt (some cmd) (PathCommand.moveTo tgt :: acc)
      | 'L' | 'l' => do
        let (x, cs2, p2) ← parseNum cmd args pA
        let (y, cs3, p3) ← parseNum cmd cs2 p2
        let tgt : Point := if cmd == 'l' then ⟨cur.x + x, cur.y + y⟩ else ⟨x, y⟩
        parseLoop fuel cs3 p3 tgt start (some cmd) (PathCommand.lineTo tgt :: acc)
      | 'H' | 'h' => do
        let (x, cs2, p2) ← parseNum cmd args pA
        let tgt : Point := if cmd == 'h' then ⟨cur.x + x, cur.y⟩ else ⟨x, cur.y⟩
        parseLoop fuel cs2 p2 tgt start (some cmd) (PathCommand.lineTo tgt :: acc)
      | 'V' | 'v' => do
        let (y, cs2, p2) ← parseNum cmd args pA
        let tgt : Point := if cmd == 'v' then ⟨cur.x, cur.y + y⟩ else ⟨cur.x, y⟩
        parseLoop fuel cs2 p2 tgt start (some cmd) (PathCommand.lineTo tgt :: acc)
      | 'C' | 'c' => do
        let (x1, csa, pa) ← parseNum cmd args pA
        let (y1, csb, pb) ← parseNum cmd csa pa
        let (x2, csc, pc2) ← parseNum cmd csb pb
        let (y2, csd, pd) ← parseNum cmd csc pc2
        let (x3, cse, pe) ← parseNum cmd csd pd
        let (y3, csf, pf) ← parseNum cmd cse pe
        let rel : Bool := cmd == 'c'
        let q1 : Point := if rel then ⟨cur.x + x1, cur.y + y1⟩ else ⟨x1, y1⟩
        let q2 : Point := if rel then ⟨cur.x + x2, cur.y + y2⟩ else ⟨x2, y2⟩
        let q3 : Point := if rel then ⟨cur.x + x3, cur.y + y3⟩ else ⟨x3, y3⟩
        parseLoop fuel csf pf q3 start (some cmd) (PathCommand.cubicTo q1 q2 q3 :: acc)
      | 'Q' | 'q' => do
        let (x1, csa, pa) ← parseNum cmd args pA
        let (y1, csb, pb) ← parseNum cmd csa pa
        let (x2, csc, pc2) ← parseNum cmd csb pb
        let (y2, csd, pd) ← parseNum cmd csc pc2
        let rel : Bool := cmd == 'q'
        let q1 : Point := if rel then ⟨cur.x + x1, cur.y + y1⟩ else ⟨x1, y1⟩
        let q2 : Point := if rel then ⟨cur.x + x2, cur.y + y2⟩ else ⟨x2, y2⟩
        parseLoop fuel csd pd q2 start (some cmd) (PathCommand.quadTo q1 q2 :: acc)
      | 'A' | 'a' => do
        let (rx, csa, pa) ← parseNum cmd args pA
        let (ry, csb, pb) ← parseNum cmd csa pa
        let (rot, csc, pc2) ← parseNum cmd csb pb
        let (la, csd, pd) ← parseFlag cmd csc pc2
        let (sw, cse, pe) ← parseFlag cmd csd pd
        let (x, csf, pf) ← parseNum cmd cse pe
        let (y, csg, pg) ← parseNum cmd csf pf
        let tgt : Point := if cmd == 'a' then ⟨cur.x + x, cur.y + y⟩ else ⟨x, y⟩
        parseLoop fuel csg pg tgt start (some cmd)
          (PathCommand.arcTo rx ry rot la sw tgt :: acc)
      | 'Z' | 'z' =>
        parseLoop fuel args pA start start none (PathCommand.closePath :: acc)
      | _ => .error ⟨String.singleton cmd, pA, .badCommand⟩

def parsePath (s : String) : Except MalformedPathError (List PathCommand) :=
  parseLoop (s.length + 1) s.toList 0 ⟨0, 0⟩ ⟨0, 0⟩ none []

/-! ## CurveFlattener

Modelled from the spec (section 4.2): the flattener implementation file is
absent from the snapshot.  Cubic and quadratic curves are subdivided by
De Casteljau halving until each segment's deviation from its straight
chord is below the caller-supplied tolerance, with a hard recursion-depth
ceiling realised as a structural fuel argument.  Elliptical arcs are
converted to a center representation and sampled along the swept sector;
the absent implementation samples with cos and sin, modelled here by a
fixed table of twelve exact rational unit vectors (Pythagorean
directions), an executable exact surrogate.  Arcs with distinct radii are
treated with the mean radius (the icon corpus uses circular arcs). -/

/-- Flatness test: squared perpendicular deviation of both control points
from the chord is within the squared tolerance (exact rational form of
the spec's maximum perpendicular deviation). -/
def flatEnough (tol : ℚ) (p0 p1 p2 p3 : Point) : Bool :=
  let d := psub p3 p0
  let dd := dotP d d
  if dd == 0 then
    decide (sqDist p1 p0 ≤ tol ^ 2) && decide (sqDist p2 p0 ≤ tol ^ 2)
  else
    decide ((crossZ d (psub p1 p0)) ^ 2 ≤ tol ^ 2 * dd) &&
      decide ((crossZ d (psub p2 p0)) ^ 2 ≤ tol ^ 2 * dd)

/-- Recursive subdivision of one cubic segment.  Returns the polyline tail
(points to append after the start point, ending with the endpoint).  The
first argument is the remaining recursion depth; depth zero emits the
chord endpoint unconditionally, realising the depth ceiling. -/
def flattenCubicAux : ℕ → ℚ → Point → Point → Point → Point → List Point
  | 0, _, _, _, _, p3 => [p3]
  | d + 1, tol, p0, p1, p2, p3 =>
    if flatEnough tol p0 p1 p2 p3 then [p3]
    else
      let m01 := midp p0 p1
      let m12 := midp p1 p2
      let m23 := midp p2 p3
      let a := midp m01 m12
      let b := midp m12 m23
      let m := midp a b
      flattenCubicAux d tol p0 m01 a m ++ flattenCubicAux d tol m b m23 p3

def maxSubdivDepth : ℕ := 10

def flatTol : ℚ := 1 / 2

def flattenCubic (p0 c1 c2 p3 : Point) : List Point :=
  flattenCubicAux maxSubdivDepth flatTol p0 c1 c2 p3

/-- Quadratic curves are flattened through exact degree elevation to a
cubic with the same trace. -/
def flattenQuad (p0 qc p2 : Point) : List Point :=
  flattenCubic p0 (padd p0 (pscale (2 / 3) (psub qc p0)))
    (padd p2 (pscale (2 / 3) (psub qc p2))) p2

/-- Twelve exact rational unit vectors in counterclockwise order: the
sampling table replacing cos and sin for arc sampling. -/
def unitDirs : List Point :=
  [⟨1, 0⟩, ⟨4/5, 3/5⟩, ⟨3/5, 4/5⟩, ⟨0, 1⟩, ⟨-3/5, 4/5⟩, ⟨-4/5, 3/5⟩,
   ⟨-1, 0⟩, ⟨-4/5, -3/5⟩, ⟨-3/5, -4/5⟩, ⟨0, -1⟩, ⟨3/5, -4/5⟩, ⟨4/5, -3/5⟩]

def unitDir (i : ℕ) : Point := unitDirs.getD i ⟨1, 0⟩

/-- Is direction d strictly inside the sector swept counterclockwise from
direction s to direction e?  Exact sign tests on cross and dot products. -/
def interiorDir (s e d : Point) : Bool :=
  let c1 := crossZ s d
  let c2 := crossZ d e
  let cse := crossZ s e
  if 0 < cse then decide (0 < c1) && decide (0 < c2)
  else if cse < 0 then decide (0 < c1) || decide (0 < c2)
  else if dotP s e < 0 then decide (0 < c1)
  else false

/-- Table slot of a direction: the index k with s in the half-open
counterclockwise sector from unitDir k to unitDir (k+1). -/
def startSlot (s : Point) : ℕ :=
  (List.range 12).findIdx fun k =>
    decide (0 ≤ crossZ (unitDir k) s) && decide (0 < crossZ s (unitDir ((k + 1) % 12)))

/-- Arc flattening: endpoint-to-center conversion followed by sampling the
table directions inside the swept sector, in sweep order, ending with the
arc endpoint. -/
def flattenArc (cur : Point) (rx ry : ℚ) (_rot : ℚ) (largeArc sweep : Bool)
    (p2 : Point) : List Point :=
  let r := (ratAbs rx + ratAbs ry) / 2
  if r == 0 || cur = p2 then [p2]
  else
    let m := midp cur p2
    let d := psub p2 cur
    let dd := dotP d d
    let h2 := r ^ 2 - dd / 4
    let h := ratSqrt (if h2 < 0 then 0 else h2)
    let sgn : ℚ := if largeArc == sweep then -1 else 1
    let ctr := padd m (pscale (sgn * h / ratSqrt dd) ⟨-d.y, d.x⟩)
    let s := psub cur ctr
    let e := psub p2 ctr
    let ccw := !sweep
    let k := startSlot s
    let idxs := (List.range 12).map fun j =>
      if ccw then (k + 1 + j) % 12 else (k + 12 - j) % 12
    let inner := idxs.filter fun i =>
      if ccw then interiorDir s e (unitDir i) else interiorDir e s (unitDir i)
    (inner.map fun i => padd ctr (pscale r (unitDir i))) ++ [p2]

/-- One flattened contour: ordered points plus the closed flag. -/
structure Subpath where
  points : List Point
  closed : Bool
deriving DecidableEq, Inhabited, Repr

/-- Append a point to a reversed point accumulator, skipping a point
coincident with the previous one. -/
def pushPt (rev : List Point) (p : Point) : List Point :=
  match rev with
  | q :: _ => if q = p then rev else p :: rev
  | [] => [p]

def pushPts (rev : List Point) (ps : List Point) : List Point :=
  ps.foldl pushPt rev

def finishSub (rev : List Point) (closed : Bool) : List Subpath :=
  match rev with
  | [] => []
  | _ => [⟨rev.reverse, closed⟩]

def ensureStart (rev : List Point) (cur : Point) : List Point :=
  match rev with
  | [] => [cur]
  | _ => rev

def headPt (rev : List Point) (cur : Point) : Point :=
  rev.headD cur

/-- Walk the absolute command list, flattening curves and assembling the
ordered subpath sequence.  A ClosePath appends the subpath's first point
when not already coincident with the last and marks the subpath closed. -/
def toSubpathsAux : List PathCommand → Point → List Point → List Subpath → List Subpath
  | [], _, rev, acc => acc ++ finishSub rev false
  | c :: cs, cur, rev, acc =>
    match c with
    | .moveTo p => toSubpathsAux cs p [p] (acc ++ finishSub rev false)
    | .lineTo p => toSubpathsAux cs p (pushPt (ensureStart rev cur) p) acc
    | .cubicTo c1 c2 p =>
      toSubpathsAux cs p
        (pushPts (ensureStart rev cur) (flattenCubic (headPt rev cur) c1 c2 p)) acc
    | .quadTo qc p =>
      toSubpathsAux cs p
        (pushPts (ensureStart rev cur) (flattenQuad (headPt rev cur) qc p)) acc
    | .arcTo rx ry rot la sw p =>
      toSubpathsAux cs p
        (pushPts (ensureStart rev cur) (flattenArc (headPt rev cur) rx ry rot la sw p)) acc
    | .closePath =>
      match rev with
      | [] => toSubpathsAux cs cur [] acc
      | _ =>
        let first := rev.getLastD cur
        toSubpathsAux cs first [] (acc ++ [⟨(pushPt rev first).reverse, true⟩])

def toSubpaths (cmds : List PathCommand) : List Subpath :=
  toSubpathsAux cmds ⟨0, 0⟩ [] []

/-- A subpath is degenerate when it has fewer than 2 distinct points; the
spec drops such subpaths silently. -/
def nonDegen (sp : Subpath) : Bool :=
  decide (2 ≤ sp.points.dedup.length)

/-! ## LoopClassifier

Modelled from the spec (section 4.3): the classifier implementation file
is absent from the snapshot.  A closed point loop is classified as a
circle when the coefficient of variation of the centroid distances is
below a circularity threshold and the point count exceeds a minimum,
else as a rectangle when every point lies near an edge of the bounding
box and all four corner regions are visited and the box is not
degenerate, else as a freeform polyline.  The thresholds are the
calibrated constants the spec leaves open. -/

inductive ShapeClassification where
  | circle (center : Point) (radius : ℚ)
  | rectangle (x y w h : ℚ)
  | freeform (pts : List Point)
deriving DecidableEq, Repr

/-- The loop statistics exclude the closing duplicate of the first point,
so that a closed trace does not double-weight its seam point. -/
def loopPts (sp : Subpath) : List Point :=
  let ps := sp.points
  if decide (2 ≤ ps.length) && decide (ps.head? = ps.getLast?) then ps.dropLast else ps

def centroidOf (pts : List Point) : Point :=
  if pts.length == 0 then ⟨0, 0⟩
  else ⟨(pts.map Point.x).sum / (pts.length : ℚ), (pts.map Point.y).sum / (pts.length : ℚ)⟩

def radiiOf (pts : List Point) : List ℚ :=
  pts.map fun q => ratSqrt (sqDist q (centroidOf pts))

def meanRadiusOf (pts : List Point) : ℚ :=
  (radiiOf pts).sum / (pts.length : ℚ)

def radiusSpread (pts : List Point) : ℚ :=
  ratSqrt (((radiiOf pts).map fun r => (r - meanRadiusOf pts) ^ 2).sum / (pts.length : ℚ))

def minCirclePts : ℕ := 8

def circThresh : ℚ := 1 / 10

def isCircleLoop (sp : Subpath) : Bool :=
  let pts := loopPts sp
  sp.closed && decide (minCirclePts < pts.length) &&
    decide (0 < meanRadiusOf pts) &&
    decide (radiusSpread pts < circThresh * meanRadiusOf pts)

structure Box where
  mnx : ℚ
  mny : ℚ
  mxx : ℚ
  mxy : ℚ
deriving DecidableEq, Repr

def bboxOf (pts : List Point) : Box :=
  match pts with
  | [] => ⟨0, 0, 0, 0⟩
  | p :: rest =>
    rest.foldl (fun b q => ⟨min b.mnx q.x, min b.mny q.y, max b.mxx q.x, max b.mxy q.y⟩)
      ⟨p.x, p.y, p.x, p.y⟩

def edgeTol : ℚ := 1 / 2

def nearEdge (b : Box) (q : Point) : Bool :=
  decide (ratAbs (q.x - b.mnx) ≤ edgeTol) || decide (ratAbs (q.x - b.mxx) ≤ edgeTol) ||
    decide (ratAbs (q.y - b.mny) ≤ edgeTol) || decide (ratAbs (q.y - b.mxy) ≤ edgeTol)

def nearCorner (q : Point) (cx cy : ℚ) : Bool :=
  decide (ratAbs (q.x - cx) ≤ edgeTol) && decide (ratAbs (q.y - cy) ≤ edgeTol)

def isRectLoop (sp : Subpath) : Bool :=
  let pts := loopPts sp
  let b := bboxOf pts
  sp.closed && decide (0 < b.mxx - b.mnx) && decide (0 < b.mxy - b.mny) &&
    pts.all (nearEdge b) &&
    pts.any (fun q => nearCorner q b.mnx b.mny) &&
    pts.any (fun q => nearCorner q b.mxx b.mny) &&
    pts.any (fun q => nearCorner q b.mxx b.mxy) &&
    pts.any (fun q => nearCorner q b.mnx b.mxy)

/-- Classification: circle test first, rectangle only when the circle
test fails, freeform as the final fallback — first match wins. -/
def classify (sp : Subpath) : ShapeClassification :=
  if isCircleLoop sp then .circle (centroidOf (loopPts sp)) (meanRadiusOf (loopPts sp))
  else if isRectLoop sp then
    let b := bboxOf (loopPts sp)
    .rectangle b.mnx b.mny (b.mxx - b.mnx) (b.mxy - b.mny)
  else .freeform sp.points

/-- Twice the shoelace sum of a point cycle, anchored at the first point. -/
def shoelaceAux (first : Point) : List Point → ℚ
  | [] => 0
  | [q] => crossZ q first
  | q :: r :: rest => crossZ q r + shoelaceAux first (r :: rest)

/-- Twice the absolute polygon area of a loop (exact rational shoelace). -/
def area2 (pts : List Point) : ℚ :=
  match pts with
  | [] => 0
  | p :: _ => ratAbs (shoelaceAux p pts)

/-- Bounding box nesting: is the inner subpath's box inside the outer
subpath's box? -/
def nestedIn (inner outer : Subpath) : Bool :=
  let bi := bboxOf (loopPts inner)
  let bo := bboxOf (loopPts outer)
  decide (bo.mnx ≤ bi.mnx) && decide (bi.mxx ≤ bo.mxx) &&
    decide (bo.mny ≤ bi.mny) && decide (bi.mxy ≤ bo.mxy)

/-- Area ratio cutoff between an incidental hole and a true ring. -/
def ringThreshold : ℚ := 1 / 2

/-- Ring detection for one closed outer subpath against the other subpaths
of the same image: some closed subpath nested inside the outer bounding
box has area above the threshold fraction of the outer area.  The ratio
comparison is in multiplied form, exactly equivalent for positive outer
area to the division the engine performs. -/
def isRingWith (outer : Subpath) (others : List Subpath) : Bool :=
  outer.closed && others.any fun inn =>
    inn.closed && nestedIn inn outer &&
      decide (ringThreshold * area2 (loopPts outer) < area2 (loopPts inn))

/-! ## StyleMapper and SceneBuilder

Modelled from the spec (sections 4.4, 4.5) and the README styling
constants: stroke width 2, stroke color 1e1e1e, filled background color
1971c2, roughness 1, roundness type 3, and uniform 4x scaling.  Rings
render as stroked outlines with the increased 8 stroke width named in the
changelog.  Element identifiers derive deterministically from the source
image name and the subpath index. -/

structure StyleSpec where
  strokeColor : String
  backgroundColor : String
  strokeWidth : ℚ
  roughness : ℕ
  roundness : ℕ
  fillStyle : String
deriving DecidableEq, Repr

def defaultStyle : StyleSpec :=
  ⟨"#1e1e1e", "#1971c2", 2, 1, 3, "solid"⟩

/-- Variant resolution; an unknown variant string recovers to the regular
outline style, as section 7 requires for UnsupportedStyleVariant. -/
def styleFor (variant : String) : StyleSpec :=
  if variant = "filled" then defaultStyle
  else if variant = "color" then defaultStyle
  else { defaultStyle with backgroundColor := "transparent" }

def scaleFactor : ℚ := 4

def outlineStrokeWidth : ℚ := 8

structure SceneElement where
  id : String
  type : String
  x : ℚ
  y : ℚ
  width : ℚ
  height : ℚ
  strokeColor : String
  backgroundColor : String
  strokeWidth : ℚ
  roughness : ℕ
  roundness : ℕ
  points : List Point
  groupId : String
deriving DecidableEq, Inhabited, Repr

structure Scene where
  elements : List SceneElement
  viewBackgroundColor : String
deriving DecidableEq, Repr

/-- Decimal digit characters. -/
def digitChars : List Char :=
  ['0', '1', '2', '3', '4', '5', '6', '7', '8', '9']

def digitChar (n : ℕ) : Char :=
  match n with
  | 0 => '0' | 1 => '1' | 2 => '2' | 3 => '3' | 4 => '4'
  | 5 => '5' | 6 => '6' | 7 => '7' | 8 => '8' | _ => '9'

/-- Decimal numeral of a natural number as characters; fuel recursion so
that the definition reduces by evaluation. -/
def natReprAux : ℕ → ℕ → List Char
  | 0, _ => []
  | f + 1, n => if n < 10 then [digitChar n] else natReprAux f (n / 10) ++ [digitChar (n % 10)]

def natRepr (n : ℕ) : List Char := natReprAux (n + 1) n

/-- Stable deterministic element identifier from the source image name and
the subpath index. -/
def mkElementId (name : String) (i : ℕ) : String :=
  name ++ "-" ++ String.mk (natRepr i)

/-- Build one scene element from the i-th non-degenerate subpath, with the
remaining subpaths supplied for ring detection. -/
def mkElement (name : String) (style : StyleSpec) (i : ℕ) (sp : Subpath)
    (others : List Subpath) : SceneElement :=
  let ring := isRingWith sp others
  let bg := if ring then "transparent" else style.backgroundColor
  let sw := if ring then outlineStrokeWidth else style.strokeWidth
  match classify sp with
  | .circle c r =>
    ⟨mkElementId name i, "ellipse", (c.x - r) * scaleFactor, (c.y - r) * scaleFactor,
      2 * r * scaleFactor, 2 * r * scaleFactor, style.strokeColor, bg, sw,
      style.roughness, style.roundness, [], name⟩
  | .rectangle x y w h =>
    ⟨mkElementId name i, "rectangle", x * scaleFactor, y * scaleFactor,
      w * scaleFactor, h * scaleFactor, style.strokeColor, bg, sw,
      style.roughness, style.roundness, [], name⟩
  | .freeform pts =>
    let b := bboxOf pts
    ⟨mkElementId name i, "line", b.mnx * scaleFactor, b.mny * scaleFactor,
      (b.mxx - b.mnx) * scaleFactor, (b.mxy - b.mny) * scaleFactor,
      style.strokeColor, bg, sw, style.roughness, style.roundness,
      pts.map (pscale scaleFactor), name⟩

/-- Scene assembly: one element per non-degenerate subpath, in subpath
order, each paired with the remaining subpaths for ring detection. -/
def buildScene (name : String) (style : StyleSpec) (sps : List Subpath) : Scene :=
  let nds := sps.filter nonDegen
  ⟨(List.range nds.length).map fun i =>
      mkElement name style i (nds.getD i ⟨[], false⟩) (nds.eraseIdx i),
    "#ffffff"⟩

structure IconImage where
  name : String
  pathData : String
  variant : String
deriving DecidableEq, Repr

/-- Whole-image conversion: parse, flatten, classify, style and build, or
report the parse failure as this image's result. -/
def processImage (img : IconImage) : Except MalformedPathError Scene :=
  (parsePath img.pathData).map fun cmds =>
    buildScene img.name (styleFor img.variant) (toSubpaths cmds)

/-- Batch conversion maps each image to its own result; one image's
failure cannot influence any other entry. -/
def convertBatch (imgs : List IconImage) : List (Except MalformedPathError Scene) :=
  imgs.map processImage

def imageSubpaths (img : IconImage) : List Subpath :=
  match parsePath img.pathData with
  | .ok cmds => toSubpaths cmds
  | .error _ => []

/-! ## Path-dictionary compression (src/web/build-scripts/optimize-emoji-data.js)
and decompression (DataDecompressor.decompressPath and
EmojiDataDecompressor.decompressPath, identical bodies).

JavaScript strings are embedded as character lists.  JS parseInt is
modelled in base 10 (leading whitespace skipped, optional sign, longest
digit run, NaN as none); the hexadecimal 0x prefix quirk of parseInt is
irrelevant to the decimal dictionary indices handled here. -/

/-- Does the candidate lead the string, character for character?  The
embedding of String.prototype.startsWith. -/
def leadsWith : List Char → List Char → Bool
  | [], _ => true
  | _ :: _, [] => false
  | p :: ps, c :: cs => p == c && leadsWith ps cs

/-- compressPath scans the dictionary in order; the first entry leading
the path is replaced by its index, a colon, and the remainder.  The index
argument carries the position of the scan within the full dictionary. -/
def compressPathAux (p : List Char) : List (List Char) → ℕ → List Char
  | [], _ => p
  | c :: rest, i =>
    if leadsWith c p then natRepr i ++ ':' :: p.drop c.length
    else compressPathAux p rest (i + 1)

def compressPath (p : List Char) (dict : List (List Char)) : List Char :=
  compressPathAux p dict 0

/-- Longest leading digit run as a number; none when there is no digit —
the NaN case of parseInt. -/
def digitsVal (l : List Char) : Option ℕ :=
  match l.takeWhile Char.isDigit with
  | [] => none
  | ds => some (digitsToNat ds)

def isSpaceChar (c : Char) : Bool :=
  c == ' ' || c == '\t' || c == '\n' || c == '\r'

def parseIntTail : List Char → Option ℤ
  | [] => none
  | c :: r =>
    if c == '-' then (digitsVal r).map fun n => -(n : ℤ)
    else if c == '+' then (digitsVal r).map fun n => (n : ℤ)
    else (digitsVal (c :: r)).map fun n => (n : ℤ)

def parseIntJS (s : List Char) : Option ℤ :=
  parseIntTail (s.dropWhile isSpaceChar)

/-- Index of the first occurrence of a character: the embedding of
String.prototype.indexOf, with none for the -1 case. -/
def jsIndexOf (c : Char) : List Char → Option ℕ
  | [] => none
  | a :: l => if a == c then some 0 else (jsIndexOf c l).map (· + 1)

/-- The in-range test and dictionary substitution applied once the first
colon has been located at index k. -/
def decompressAt (dict : List (List Char)) (cp : List Char) (k : ℕ) : List Char :=
  match parseIntJS (cp.take k) with
  | none => cp
  | some n =>
    if 0 ≤ n ∧ n < (dict.length : ℤ) then dict.getD n.toNat [] ++ cp.drop (k + 1)
    else cp

/-- decompressPath: no colon means not compressed; otherwise the text
before the first colon is fed to parseInt and, when it names an in-range
dictionary index, replaced by that dictionary entry. -/
def decompressPath (dict : List (List Char)) (cp : List Char) : List Char :=
  match jsIndexOf ':' cp with
  | none => cp
  | some k => decompressAt dict cp k

/-! ## Keyword compression (src/web/build-scripts/optimize-emoji-data.js,
compressKeywords). -/

def stopWords : List String :=
  ["and", "or", "the", "a", "an", "in", "on", "at", "to", "for"]

def keywordOk (k : String) : Bool :=
  decide (1 < k.length) && !(stopWords.contains k)

/-- The arr.indexOf(keyword) === index filter keeps exactly the first
occurrence of each keyword, in order. -/
def dedupKeepFirst (seen : List String) : List String → List String
  | [] => []
  | k :: ks =>
    if seen.contains k then dedupKeepFirst seen ks
    else k :: dedupKeepFirst (k :: seen) ks

def compressKeywords (ks : List String) : List String :=
  (dedupKeepFirst [] (ks.filter keywordOk)).take 8

/-! ## Favorites service (FavoritesService.toggleIconFavorite).

The JavaScript Set of icon ids and Set of emoji ids are embedded as
finite sets; membership toggling is the only operation the claim
concerns, and storage and listener notification are value-irrelevant
side effects. -/

structure FavoritesState where
  icons : Finset String
  emojis : Finset String
deriving DecidableEq

def toggleIconFavorite (iconId : String) (s : FavoritesState) : FavoritesState :=
  if iconId ∈ s.icons then { s with icons := s.icons.erase iconId }
  else { s with icons := insert iconId s.icons }

/-! ## Concrete inputs used by witnesses. -/

/-- A closed twelve-point loop on the circle of radius 5 about the origin. -/
def circleLoopW : Subpath :=
  ⟨[⟨5, 0⟩, ⟨4, 3⟩, ⟨3, 4⟩, ⟨0, 5⟩, ⟨-3, 4⟩, ⟨-4, 3⟩,
    ⟨-5, 0⟩, ⟨-4, -3⟩, ⟨-3, -4⟩, ⟨0, -5⟩, ⟨3, -4⟩, ⟨4, -3⟩], true⟩

/-- A closed axis-aligned rectangle loop. -/
def rectLoopW : Subpath :=
  ⟨[⟨4, 4⟩, ⟨20, 4⟩, ⟨20, 20⟩, ⟨4, 20⟩, ⟨4, 4⟩], true⟩

/-- An open three-point polyline. -/
def openLoopW : Subpath :=
  ⟨[⟨0, 0⟩, ⟨1, 0⟩, ⟨2, 5⟩], false⟩

/-- A degenerate single-point subpath. -/
def degenW : Subpath := ⟨[⟨0, 0⟩], false⟩

def wSps : List Subpath := [circleLoopW, degenW]

def imgT : IconImage := ⟨"t", "M4 4h16v16h-16z", "regular"⟩

def scT : Scene :=
  buildScene "t" (styleFor "regular")
    (toSubpaths [PathCommand.moveTo ⟨4, 4⟩, PathCommand.lineTo ⟨20, 4⟩,
      PathCommand.lineTo ⟨20, 20⟩, PathCommand.lineTo ⟨4, 20⟩, PathCommand.closePath])

/-- Scenario A input. -/
def imgA : IconImage :=
  ⟨"circle_icon", "M12 2a10 10 0 1 0 0 20 10 10 0 1 0 0-20z", "regular"⟩

/-- Outer square contour for the ring scenarios. -/
def wOuter : Subpath := ⟨[⟨0, 0⟩, ⟨10, 0⟩, ⟨10, 10⟩, ⟨0, 10⟩], true⟩

/-- A small inner counter-hole (area ratio below the threshold). -/
def wInnerSmall : Subpath := ⟨[⟨1, 1⟩, ⟨2, 1⟩, ⟨2, 2⟩, ⟨1, 2⟩], true⟩

/-- A large inner hole (area ratio above the threshold). -/
def wInnerBig : Subpath := ⟨[⟨1, 1⟩, ⟨9, 1⟩, ⟨9, 9⟩, ⟨1, 9⟩], true⟩

/-- Dictionary used by the compression witnesses and counterexample. -/
def dictW : List (List Char) := ["assets/excalidraw/".toList]

/-- A path matching the dictionary entry. -/
def pathMatchW : List Char := "assets/excalidraw/icons/arrow.excalidraw".toList

/-- A path matching no dictionary entry whose text before the first colon
parses as the in-range index 0. -/
def pathColonW : List Char := "0:x".toList

def kwListW : List String := ["and", "cat", "a", "cat", "dog", "x"]

instance {ε α : Type} [DecidableEq ε] [DecidableEq α] : DecidableEq (Except ε α) := fun a b =>
  match a, b with
  | .ok x, .ok y =>
    if h : x = y then isTrue (by rw [h]) else isFalse (by intro hc; injection hc; exact h ‹_›)
  | .ok _, .error _ => isFalse (by intro hc; exact Except.noConfusion hc)
  | .error _, .ok _ => isFalse (by intro hc; exact Except.noConfusion hc)
  | .error x, .error y =>
    if h : x = y then isTrue (by rw [h]) else isFalse (by intro hc; injection hc; exact h ‹_›)

/-! ## Helper lemmas. -/

theorem mkElement_id (name : String) (style : StyleSpec) (i : ℕ) (sp : Subpath)
    (others : List Subpath) : (mkElement name style i sp others).id = mkElementId name i := by
  cases h : classify sp <;> simp [mkElement, h]

theorem buildScene_length (name : String) (style : StyleSpec) (sps : List Subpath) :
    (buildScene name style sps).elements.length = (sps.filter nonDegen).length := by
  simp [buildScene]

theorem buildScene_getElem (name : String) (style : StyleSpec) (sps : List Subpath)
    (j : ℕ) :
    (buildScene name style sps).elements[j]? =
      ((sps.filter nonDegen)[j]?).map
        (fun sp => mkElement name style j sp ((sps.filter nonDegen).eraseIdx j)) := by
  simp only [buildScene]
  rw [List.getElem?_map]
  by_cases h : j < (sps.filter nonDegen).length
  · rw [List.getElem?_range h, List.getElem?_eq_getElem h]
    have hg : (sps.filter nonDegen).getD j (⟨[], false⟩ : Subpath) =
        (sps.filter nonDegen)[j] := by
      rw [List.getD_eq_getElem?_getD, List.getElem?_eq_getElem h]
      rfl
    simp only [Option.map_some', hg]
  · rw [List.getElem?_eq_none (by simpa using le_of_not_lt h),
      List.getElem?_eq_none (le_of_not_lt h)]
    rfl

theorem processImage_ok_eq (img : IconImage) (sc : Scene)
    (h : processImage img = .ok sc) :
    sc = buildScene img.name (styleFor img.variant) (imageSubpaths img) := by
  cases hp : parsePath img.pathData with
  | ok cmds =>
    rw [processImage, hp] at h
    injection h with h
    rw [← h]
    simp [imageSubpaths, hp]
  | error e =>
    rw [processImage, hp] at h
    exact Except.noConfusion h

theorem flattenCubicAux_length (d : ℕ) (tol : ℚ) (p0 p1 p2 p3 : Point) :
    (flattenCubicAux d tol p0 p1 p2 p3).length ≤ 2 ^ d := by
  induction d generalizing p0 p1 p2 p3 with
  | zero => simp [flattenCubicAux]
  | succ d ih =>
    rw [flattenCubicAux]
    split
    · simp [Nat.one_le_two_pow]
    · rw [List.length_append]
      refine le_trans (Nat.add_le_add (ih _ _ _ _) (ih _ _ _ _)) ?_
      rw [pow_succ]
      omega

theorem flattenCubicAux_flat (d : ℕ) (tol : ℚ) (p0 p1 p2 p3 : Point)
    (h : flatEnough tol p0 p1 p2 p3 = true) :
    flattenCubicAux (d + 1) tol p0 p1 p2 p3 = [p3] := by
  rw [flattenCubicAux, if_pos h]

/-! Digit and numeral lemmas supporting the compression proofs and the
deterministic identifier scheme. -/

theorem digitChar_mem (n : ℕ) : digitChar n ∈ digitChars := by
  unfold digitChar
  split <;> decide

theorem digitChar_val (n : ℕ) (h : n < 10) : (digitChar n).toNat - 48 = n := by
  interval_cases n <;> decide

theorem natReprAux_mem (f : ℕ) : ∀ n c, c ∈ natReprAux f n → c ∈ digitChars := by
  induction f with
  | zero => intro n c hc; simp [natReprAux] at hc
  | succ f ih =>
    intro n c hc
    rw [natReprAux] at hc
    by_cases h : n < 10
    · rw [if_pos h] at hc
      rcases List.mem_singleton.mp hc with rfl
      exact digitChar_mem n
    · rw [if_neg h] at hc
      rcases List.mem_append.mp hc with h2 | h2
      · exact ih _ _ h2
      · rcases List.mem_singleton.mp h2 with rfl
        exact digitChar_mem _

theorem natReprAux_ne_nil (f n : ℕ) (h : 0 < f) : natReprAux f n ≠ [] := by
  cases f with
  | zero => omega
  | succ f =>
    rw [natReprAux]
    by_cases h2 : n < 10
    · simp [h2]
    · simp [h2]

theorem digitsToNat_append_one (l : List Char) (c : Char) :
    digitsToNat (l ++ [c]) = 10 * digitsToNat l + (c.toNat - 48) := by
  simp [digitsToNat, List.foldl_append]

theorem natReprAux_val (f : ℕ) : ∀ n, n < f → digitsToNat (natReprAux f n) = n := by
  induction f with
  | zero => intro n h; omega
  | succ f ih =>
    intro n h
    rw [natReprAux]
    by_cases h2 : n < 10
    · rw [if_pos h2]
      show digitsToNat [digitChar n] = n
      simp [digitsToNat, digitChar_val n h2]
    · rw [if_neg h2]
      rw [digitsToNat_append_one, digitChar_val _ (Nat.mod_lt n (by omega))]
      have hdiv : n / 10 < n := Nat.div_lt_self (by omega) (by omega)
      rw [ih (n / 10) (by omega)]
      omega

theorem natRepr_mem (n : ℕ) (c : Char) (h : c ∈ natRepr n) : c ∈ digitChars :=
  natReprAux_mem (n + 1) n c h

theorem natRepr_ne_nil (n : ℕ) : natRepr n ≠ [] :=
  natReprAux_ne_nil (n + 1) n (by omega)

theorem natRepr_val (n : ℕ) : digitsToNat (natRepr n) = n :=
  natReprAux_val (n + 1) n (by omega)

theorem digit_not_special (c : Char) (h : c ∈ digitChars) :
    Char.isDigit c = true ∧ (c == ':') = false ∧ isSpaceChar c = false ∧
      (c == '-') = false ∧ (c == '+') = false := by
  fin_cases h <;> exact ⟨rfl, rfl, rfl, rfl, rfl⟩

theorem leadsWith_eq : ∀ (c p : List Char), leadsWith c p = true → p = c ++ p.drop c.length := by
  intro c
  induction c with
  | nil => intro p _; simp
  | cons a c ih =>
    intro p h
    cases p with
    | nil => simp [leadsWith] at h
    | cons b p =>
      rw [leadsWith, Bool.and_eq_true, beq_iff_eq] at h
      rcases h with ⟨rfl, h2⟩
      simpa using ih p h2

theorem takeWhile_all {p : Char → Bool} :
    ∀ l : List Char, (∀ c ∈ l, p c = true) → l.takeWhile p = l := by
  intro l
  induction l with
  | nil => intro _; rfl
  | cons a l ih =>
    intro h
    rw [List.takeWhile_cons, h a (by simp), ih fun c hc => h c (by simp [hc])]
    simp

theorem digitsVal_natRepr (n : ℕ) : digitsVal (natRepr n) = some n := by
  have hall : (natRepr n).takeWhile Char.isDigit = natRepr n :=
    takeWhile_all _ fun c hc => (digit_not_special c (natRepr_mem n c hc)).1
  rw [digitsVal, hall]
  rcases h : natRepr n with - | ⟨a, l⟩
  · exact absurd h (natRepr_ne_nil n)
  · show some (digitsToNat (a :: l)) = some n
    rw [← h, natRepr_val]

theorem dropWhile_head_false {p : Char → Bool} (a : Char) (l : List Char)
    (h : p a = false) : (a :: l).dropWhile p = a :: l := by
  rw [List.dropWhile_cons, h]
  simp

theorem parseIntTail_plain (a : Char) (l : List Char)
    (hminus : (a == '-') = false) (hplus : (a == '+') = false) :
    parseIntTail (a :: l) = (digitsVal (a :: l)).map fun k => (k : ℤ) := by
  rw [parseIntTail, hminus, hplus]
  simp

theorem parseIntJS_natRepr (n : ℕ) : parseIntJS (natRepr n) = some (n : ℤ) := by
  rcases h : natRepr n with - | ⟨a, l⟩
  · exact absurd h (natRepr_ne_nil n)
  · have ha : a ∈ digitChars := natRepr_mem n a (by rw [h]; simp)
    obtain ⟨-, -, hsp, hminus, hplus⟩ := digit_not_special a ha
    rw [parseIntJS, dropWhile_head_false a l hsp,
      parseIntTail_plain a l hminus hplus, ← h, digitsVal_natRepr]
    rfl

theorem jsIndexOf_none (c : Char) : ∀ l : List Char, c ∉ l → jsIndexOf c l = none := by
  intro l
  induction l with
  | nil => intro _; rfl
  | cons a l ih =>
    intro h
    rw [jsIndexOf]
    have hne : (a == c) = false := by
      simp only [beq_eq_false_iff_ne, ne_eq]
      intro hq
      exact h (by rw [hq]; simp)
    rw [hne]
    simp [ih fun hm => h (by simp [hm])]

theorem jsIndexOf_digits_colon (sfx : List Char) :
    ∀ ds : List Char, (∀ c ∈ ds, (c == ':') = false) →
      jsIndexOf ':' (ds ++ ':' :: sfx) = some ds.length := by
  intro ds
  induction ds with
  | nil => intro _; simp [jsIndexOf]
  | cons a ds ih =>
    intro h
    rw [List.cons_append, jsIndexOf, h a (by simp)]
    rw [ih fun c hc => h c (by simp [hc])]
    rfl

theorem take_append_len (ds tl : List Char) : (ds ++ tl).take ds.length = ds := by
  simp [List.take_left]

theorem drop_append_len_succ (ds : List Char) (c : Char) (tl : List Char) :
    (ds ++ c :: tl).drop (ds.length + 1) = tl := by
  have : ds ++ c :: tl = (ds ++ [c]) ++ tl := by simp
  rw [this]
  have hlen : ds.length + 1 = (ds ++ [c]).length := by simp
  rw [hlen, List.drop_left]

theorem decompressPath_idx (dict : List (List Char)) (cp : List Char) (k : ℕ)
    (h : jsIndexOf ':' cp = some k) :
    decompressPath dict cp = decompressAt dict cp k := by
  rw [decompressPath, h]

theorem decompressAt_val (dict : List (List Char)) (cp : List Char) (k : ℕ) (n : ℤ)
    (h : parseIntJS (cp.take k) = some n) :
    decompressAt dict cp k =
      if 0 ≤ n ∧ n < (dict.length : ℤ) then dict.getD n.toNat [] ++ cp.drop (k + 1)
      else cp := by
  rw [decompressAt, h]

theorem compressPathAux_no_match (p : List Char) :
    ∀ (rest : List (List Char)) (start : ℕ),
      (∀ c ∈ rest, leadsWith c p = false) → compressPathAux p rest start = p := by
  intro rest
  induction rest with
  | nil => intro start _; rfl
  | cons c rest ih =>
    intro start h
    rw [compressPathAux, h c (by simp)]
    simp only [Bool.false_eq_true, if_false]
    exact ih (start + 1) fun d hd => h d (by simp [hd])

theorem decompressPath_compressPathAux (dict : List (List Char)) :
    ∀ (rest : List (List Char)) (start : ℕ) (p : List Char),
      start + rest.length ≤ dict.length →
      (∀ j, j < rest.length → rest.getD j [] = dict.getD (start + j) []) →
      (∃ c ∈ rest, leadsWith c p = true) →
      decompressPath dict (compressPathAux p rest start) = p := by
  intro rest
  induction rest with
  | nil =>
    intro start p _ _ hex
    simp at hex
  | cons c rest ih =>
    intro start p hlen hidx hex
    by_cases hl : leadsWith c p = true
    · rw [compressPathAux, hl]
      simp only [if_true]
      have hdig : ∀ d ∈ natRepr start, (d == ':') = false :=
        fun d hd => (digit_not_special d (natRepr_mem start d hd)).2.1
      rw [decompressPath_idx dict _ _ (jsIndexOf_digits_colon _ _ hdig)]
      have ht : (natRepr start ++ ':' :: p.drop c.length).take (natRepr start).length =
          natRepr start := take_append_len _ _
      rw [decompressAt_val dict _ _ start (by rw [ht, parseIntJS_natRepr])]
      have hrange : 0 ≤ (start : ℤ) ∧ (start : ℤ) < (dict.length : ℤ) := by
        constructor
        · exact Int.natCast_nonneg start
        · have : start < dict.length := by simp at hlen; omega
          exact_mod_cast this
      rw [if_pos hrange, drop_append_len_succ]
      have hc : dict.getD (Int.toNat (start : ℤ)) [] = c := by
        have h0 := hidx 0 (by simp)
        simp at h0
        rw [Int.toNat_natCast, List.getD_eq_getElem?_getD, ← h0]
      rw [hc, ← leadsWith_eq c p hl]
    · rw [compressPathAux]
      simp only [hl, Bool.false_eq_true, if_false]
      refine ih (start + 1) p (by simp at hlen; omega) ?_ ?_
      · intro j hj
        have h2 := hidx (j + 1) (by simp; omega)
        rw [List.getD_cons_succ] at h2
        rw [h2]
        congr 1
        omega
      · rcases hex with ⟨d, hd, hdl⟩
        rcases List.mem_cons.mp hd with rfl | hd2
        · exact absurd hdl hl
        · exact ⟨d, hd2, hdl⟩

theorem dedupKeepFirst_sublist : ∀ (l : List String) (seen : List String),
    List.Sublist (dedupKeepFirst seen l) l := by
  intro l
  induction l with
  | nil => intro seen; simp [dedupKeepFirst]
  | cons k ks ih =>
    intro seen
    rw [dedupKeepFirst]
    by_cases h : seen.contains k
    · rw [if_pos h]
      exact (ih seen).cons k
    · rw [if_neg h]
      exact (ih (k :: seen)).cons₂ k

theorem dedupKeepFirst_spec : ∀ (l : List String) (seen : List String),
    (∀ x ∈ dedupKeepFirst seen l, x ∉ seen) ∧ (dedupKeepFirst seen l).Nodup := by
  intro l
  induction l with
  | nil => intro seen; simp [dedupKeepFirst]
  | cons k ks ih =>
    intro seen
    rw [dedupKeepFirst]
    by_cases h : seen.contains k
    · rw [if_pos h]
      exact ih seen
    · rw [if_neg h]
      have hk : k ∉ seen := by
        intro hm
        exact h (List.elem_eq_true_of_mem hm)
      obtain ⟨hnot, hnd⟩ := ih (k :: seen)
      refine ⟨?_, ?_⟩
      · intro x hx
        rcases List.mem_cons.mp hx with rfl | hx2
        · exact hk
        · intro hxs
          exact hnot x hx2 (by simp [hxs])
      · refine List.Nodup.cons ?_ hnd
        intro hkm
        exact hnot k hkm (by simp)

/-! ## Claim theorems. -/

/-- C1: Structure preservation — the output scene has exactly one
top-level element per non-degenerate input subpath, in subpath order,
with the j-th element built from the j-th non-degenerate subpath;
degenerate subpaths (fewer than 2 distinct points) are the only ones
dropped, and this also holds through the whole per-image pipeline. -/
theorem claim_structure_preservation (name : String) (style : StyleSpec)
    (sps : List Subpath) :
    (buildScene name style sps).elements.length = (sps.filter nonDegen).length ∧
    (∀ j : ℕ, (buildScene name style sps).elements[j]? =
      ((sps.filter nonDegen)[j]?).map
        (fun sp => mkElement name style j sp ((sps.filter nonDegen).eraseIdx j))) ∧
    (∀ (img : IconImage) (sc : Scene), processImage img = .ok sc →
      sc.elements.length = ((imageSubpaths img).filter nonDegen).length) := by
  refine ⟨buildScene_length name style sps, fun j => buildScene_getElem name style sps j, ?_⟩
  intro img sc h
  rw [processImage_ok_eq img sc h, buildScene_length]

theorem claim_structure_preservation_witness :
    (buildScene "w" defaultStyle wSps).elements.length = (wSps.filter nonDegen).length ∧
    (buildScene "w" defaultStyle wSps).elements[0]? =
      ((wSps.filter nonDegen)[0]?).map
        (fun sp => mkElement "w" defaultStyle 0 sp ((wSps.filter nonDegen).eraseIdx 0)) ∧
    scT.elements.length = ((imageSubpaths imgT).filter nonDegen).length :=
  ⟨(claim_structure_preservation "w" defaultStyle wSps).1,
   (claim_structure_preservation "w" defaultStyle wSps).2.1 0,
   (claim_structure_preservation "w" defaultStyle wSps).2.2 imgT scT (by decide)⟩

/-- C2: Determinism — converting the same input twice yields the same
output (the model is a pure function of the input), and every element
identifier is the deterministic function of the source image name and
the subpath index. -/
theorem claim_deterministic_output (img : IconImage) (sc : Scene) (j : ℕ)
    (e : SceneElement) :
    processImage img = processImage img ∧
    (processImage img = .ok sc → sc.elements[j]? = some e →
      e.id = mkElementId img.name j) := by
  refine ⟨rfl, fun h1 h2 => ?_⟩
  rw [processImage_ok_eq img sc h1, buildScene_getElem] at h2
  cases hg : ((imageSubpaths img).filter nonDegen)[j]? with
  | none => rw [hg] at h2; simp at h2
  | some sp =>
    rw [hg] at h2
    simp only [Option.map_some'] at h2
    injection h2 with h2
    rw [← h2, mkElement_id]

theorem claim_deterministic_output_witness :
    processImage imgT = processImage imgT ∧
    (scT.elements.getD 0 default).id = mkElementId "t" 0 :=
  ⟨(claim_deterministic_output imgT scT 0 (scT.elements.getD 0 default)).1,
   (claim_deterministic_output imgT scT 0 (scT.elements.getD 0 default)).2
     (by decide) (by decide)⟩

/-- C3: Ring and hole classification — for a closed outer subpath with a
closed inner subpath nested inside its bounding box, an inner area below
the threshold fraction of the outer area leaves the outer rendered
exactly as it would be with no hole at all (filled, hole ignored), and an
inner area above the threshold renders the outer as a stroked outline
with transparent background and the increased outline stroke width. -/
theorem claim_ring_rendering (name : String) (style : StyleSpec) (i : ℕ)
    (outer inner : Subpath) (hoc : outer.closed = true) (hic : inner.closed = true)
    (hn : nestedIn inner outer = true) :
    (area2 (loopPts inner) < ringThreshold * area2 (loopPts outer) →
      mkElement name style i outer [inner] = mkElement name style i outer []) ∧
    (ringThreshold * area2 (loopPts outer) < area2 (loopPts inner) →
      (mkElement name style i outer [inner]).backgroundColor = "transparent" ∧
      (mkElement name style i outer [inner]).strokeWidth = outlineStrokeWidth ∧
      defaultStyle.strokeWidth < outlineStrokeWidth) := by
  constructor
  · intro hsmall
    have hnb : ¬(ringThreshold * area2 (loopPts outer) < area2 (loopPts inner)) :=
      not_lt.mpr (le_of_lt hsmall)
    have hr : isRingWith outer [inner] = false := by
      simp [isRingWith, hnb]
    have hr0 : isRingWith outer [] = false := by
      simp [isRingWith]
    cases hcl : classify outer <;> simp [mkElement, hcl, hr, hr0]
  · intro hbig
    have hr : isRingWith outer [inner] = true := by
      simp [isRingWith, hoc, hic, hn, hbig]
    refine ⟨?_, ?_, by norm_num [defaultStyle, outlineStrokeWidth]⟩ <;>
      cases hcl : classify outer <;> simp [mkElement, hcl, hr]

theorem claim_ring_rendering_witness :
    (mkElement "t" defaultStyle 0 wOuter [wInnerSmall] =
      mkElement "t" defaultStyle 0 wOuter []) ∧
    ((mkElement "t" defaultStyle 0 wOuter [wInnerBig]).backgroundColor = "transparent" ∧
      (mkElement "t" defaultStyle 0 wOuter [wInnerBig]).strokeWidth = outlineStrokeWidth ∧
      defaultStyle.strokeWidth < outlineStrokeWidth) :=
  ⟨(claim_ring_rendering "t" defaultStyle 0 wOuter wInnerSmall rfl rfl (by decide)).1
      (by decide),
   (claim_ring_rendering "t" defaultStyle 0 wOuter wInnerBig rfl rfl (by decide)).2
      (by decide)⟩

/-- C4: Loop classification is total and ordered — classify is a total
function returning one ShapeClassification; a successful circle test
forces the circle result, the rectangle test is consulted only when the
circle test fails, and freeform is the fallback when both fail. -/
theorem claim_classification_order (sp : Subpath) :
    (isCircleLoop sp = true →
      classify sp = .circle (centroidOf (loopPts sp)) (meanRadiusOf (loopPts sp))) ∧
    (isCircleLoop sp = false → isRectLoop sp = true →
      classify sp = .rectangle (bboxOf (loopPts sp)).mnx (bboxOf (loopPts sp)).mny
        ((bboxOf (loopPts sp)).mxx - (bboxOf (loopPts sp)).mnx)
        ((bboxOf (loopPts sp)).mxy - (bboxOf (loopPts sp)).mny)) ∧
    (isCircleLoop sp = false → isRectLoop sp = false →
      classify sp = .freeform sp.points) := by
  refine ⟨fun h => ?_, fun h1 h2 => ?_, fun h1 h2 => ?_⟩
  · rw [classify, if_pos h]
  · rw [classify, if_neg (by simp [h1]), if_pos h2]
  · rw [classify, if_neg (by simp [h1]), if_neg (by simp [h2])]

theorem claim_classification_order_witness :
    classify circleLoopW =
      .circle (centroidOf (loopPts circleLoopW)) (meanRadiusOf (loopPts circleLoopW)) ∧
    classify rectLoopW =
      .rectangle (bboxOf (loopPts rectLoopW)).mnx (bboxOf (loopPts rectLoopW)).mny
        ((bboxOf (loopPts rectLoopW)).mxx - (bboxOf (loopPts rectLoopW)).mnx)
        ((bboxOf (loopPts rectLoopW)).mxy - (bboxOf (loopPts rectLoopW)).mny) ∧
    classify openLoopW = .freeform openLoopW.points :=
  ⟨(claim_classification_order circleLoopW).1 (by decide),
   (claim_classification_order rectLoopW).2.1 (by decide) (by decide),
   (claim_classification_order openLoopW).2.2 (by decide) (by decide)⟩

/-- C5: Parser failure and isolation — the batch result has one entry per
image, each entry is exactly the independent conversion of its own image,
every parse error is one of the three MalformedPathError kinds (bad
command letter, missing numeric arguments, bad numeric token), and the
malformed input of the spec scenario fails with the command Q reported at
its position, while the batch shape is untouched by any failure. -/
theorem claim_error_isolation (imgs : List IconImage) (j : ℕ) (s : String)
    (err : MalformedPathError) :
    (convertBatch imgs).length = imgs.length ∧
    (convertBatch imgs)[j]? = (imgs[j]?).map processImage ∧
    (parsePath s = .error err →
      err.kind = ErrKind.badCommand ∨ err.kind = ErrKind.missingArgs ∨
        err.kind = ErrKind.badNumber) ∧
    parsePath "M 4 4 Q" = .error ⟨"Q", 7, ErrKind.missingArgs⟩ := by
  refine ⟨by simp [convertBatch], by simp [convertBatch], fun _ => ?_, by decide⟩
  cases err with
  | mk tok pos kind => cases kind <;> simp

theorem claim_error_isolation_witness :
    (convertBatch [imgT]).length = [imgT].length ∧
    (convertBatch [imgT])[0]? = ([imgT][0]?).map processImage ∧
    ((⟨"Q", 7, ErrKind.missingArgs⟩ : MalformedPathError).kind = ErrKind.badCommand ∨
      (⟨"Q", 7, ErrKind.missingArgs⟩ : MalformedPathError).kind = ErrKind.missingArgs ∨
      (⟨"Q", 7, ErrKind.missingArgs⟩ : MalformedPathError).kind = ErrKind.badNumber) ∧
    parsePath "M 4 4 Q" = .error ⟨"Q", 7, ErrKind.missingArgs⟩ :=
  ⟨(claim_error_isolation [imgT] 0 "M 4 4 Q" ⟨"Q", 7, ErrKind.missingArgs⟩).1,
   (claim_error_isolation [imgT] 0 "M 4 4 Q" ⟨"Q", 7, ErrKind.missingArgs⟩).2.1,
   (claim_error_isolation [imgT] 0 "M 4 4 Q" ⟨"Q", 7, ErrKind.missingArgs⟩).2.2.1
     (by decide),
   (claim_error_isolation [imgT] 0 "M 4 4 Q" ⟨"Q", 7, ErrKind.missingArgs⟩).2.2.2⟩

/-- C6: Scenario A end to end — the circle path of the spec yields exactly
one Circle classification with center (12,12) and radius 10, and the
built scene contains exactly one ellipse element of width and height 80
after the uniform 4x scale. -/
theorem claim_scenario_a :
    ((imageSubpaths imgA).filter nonDegen).map classify =
      [ShapeClassification.circle ⟨12, 12⟩ 10] ∧
    (processImage imgA).toOption.map
        (fun s => s.elements.map fun e => (e.type, e.width, e.height)) =
      some [("ellipse", (80 : ℚ), (80 : ℚ))] :=
  ⟨by decide, by decide⟩

/-- C7: Curve flattening terminates within its bounds — a segment already
within tolerance of its chord stops immediately (one chord segment), and
for every input, tolerance and remaining depth, the emitted polyline is
bounded by 2 to the depth, so the recursion always stops at the depth
ceiling even when the deviation never falls below tolerance. -/
theorem claim_flatten_bounded (d : ℕ) (tol : ℚ) (p0 p1 p2 p3 : Point) :
    (flatEnough tol p0 p1 p2 p3 = true →
      flattenCubicAux (d + 1) tol p0 p1 p2 p3 = [p3]) ∧
    (flattenCubicAux d tol p0 p1 p2 p3).length ≤ 2 ^ d :=
  ⟨flattenCubicAux_flat d tol p0 p1 p2 p3, flattenCubicAux_length d tol p0 p1 p2 p3⟩

theorem claim_flatten_bounded_witness :
    flattenCubicAux 3 flatTol ⟨0, 0⟩ ⟨1, 0⟩ ⟨2, 0⟩ ⟨3, 0⟩ = [⟨3, 0⟩] ∧
    (flattenCubicAux 3 flatTol ⟨0, 0⟩ ⟨1, 0⟩ ⟨2, 0⟩ ⟨3, 0⟩).length ≤ 2 ^ 3 :=
  ⟨(claim_flatten_bounded 2 flatTol ⟨0, 0⟩ ⟨1, 0⟩ ⟨2, 0⟩ ⟨3, 0⟩).1 (by decide),
   (claim_flatten_bounded 3 flatTol ⟨0, 0⟩ ⟨1, 0⟩ ⟨2, 0⟩ ⟨3, 0⟩).2⟩

/-- C8 counterexample: the round trip fails on a path that matches no
dictionary prefix but whose text before its first colon parses as the
in-range index 0 — decompressPath wrongly expands it. -/
theorem claim_roundtrip_counterexample :
    decompressPath dictW (compressPath pathColonW dictW) ≠ pathColonW := by decide

/-- C8 amended: the round trip decompressPath (compressPath p dict) = p
holds for every path that matches some dictionary prefix, and for every
non-matching path containing no colon character; a non-matching path
whose text before its first colon parses as an in-range dictionary index
is wrongly expanded instead. -/
theorem claim_roundtrip_amended (p : List Char) (dict : List (List Char))
    (h : (':' ∉ p) ∨ ∃ c ∈ dict, leadsWith c p = true) :
    decompressPath dict (compressPath p dict) = p := by
  have hmatch : (∃ c ∈ dict, leadsWith c p = true) →
      decompressPath dict (compressPath p dict) = p := by
    intro hx
    refine decompressPath_compressPathAux dict dict 0 p (by simp) ?_ hx
    intro j hj
    rw [Nat.zero_add]
  rcases h with hnc | hx
  · by_cases hx : ∃ c ∈ dict, leadsWith c p = true
    · exact hmatch hx
    · have hall : ∀ c ∈ dict, leadsWith c p = false := by
        intro c hc
        by_contra hcc
        exact hx ⟨c, hc, by revert hcc; cases leadsWith c p <;> simp⟩
      rw [compressPath, compressPathAux_no_match p dict 0 hall,
        decompressPath, jsIndexOf_none ':' p hnc]
  · exact hmatch hx

theorem claim_roundtrip_amended_witness :
    decompressPath dictW (compressPath pathMatchW dictW) = pathMatchW :=
  claim_roundtrip_amended pathMatchW dictW
    (Or.inr ⟨"assets/excalidraw/".toList, by decide, by decide⟩)

/-- C9: compressKeywords postcondition — the result has at most 8
keywords, each longer than one character and outside the stop-word set,
with no duplicates, and it is a sublist of the input, so the relative
order of retained keywords is preserved. -/
theorem claim_compress_keywords (ks : List String) :
    (compressKeywords ks).length ≤ 8 ∧
    (∀ k ∈ compressKeywords ks, 1 < k.length ∧ k ∉ stopWords) ∧
    (compressKeywords ks).Nodup ∧
    List.Sublist (compressKeywords ks) ks := by
  refine ⟨List.length_take_le 8 _, ?_, ?_, ?_⟩
  · intro k hk
    have hk2 : k ∈ dedupKeepFirst [] (ks.filter keywordOk) := List.mem_of_mem_take hk
    have hk3 : k ∈ ks.filter keywordOk :=
      (dedupKeepFirst_sublist (ks.filter keywordOk) []).subset hk2
    have hok : keywordOk k = true := (List.mem_filter.mp hk3).2
    rw [keywordOk, Bool.and_eq_true] at hok
    obtain ⟨h1, h2⟩ := hok
    refine ⟨of_decide_eq_true h1, ?_⟩
    intro hm
    rw [Bool.not_eq_true'] at h2
    have h3 : stopWords.elem k = false := h2
    rw [List.elem_eq_true_of_mem hm] at h3
    exact Bool.noConfusion h3
  · exact ((dedupKeepFirst_spec (ks.filter keywordOk) []).2).sublist
      (List.take_sublist 8 _)
  · exact ((List.take_sublist 8 _).trans
      (dedupKeepFirst_sublist (ks.filter keywordOk) [])).trans (List.filter_sublist ks)

theorem claim_compress_keywords_witness :
    (compressKeywords kwListW).length ≤ 8 ∧
    (1 < "cat".length ∧ "cat" ∉ stopWords) ∧
    (compressKeywords kwListW).Nodup ∧
    List.Sublist (compressKeywords kwListW) kwListW :=
  ⟨(claim_compress_keywords kwListW).1,
   (claim_compress_keywords kwListW).2.1 "cat" (by decide),
   (claim_compress_keywords kwListW).2.2.1,
   (claim_compress_keywords kwListW).2.2.2⟩

/-- C10: Toggling a favorite icon id flips exactly that id's membership in
the icons favorites set, leaves the emojis set unchanged, and toggling
twice restores the whole favorites state. -/
theorem claim_toggle_involution (s : FavoritesState) (iconId : String) :
    (iconId ∈ (toggleIconFavorite iconId s).icons ↔ iconId ∉ s.icons) ∧
    toggleIconFavorite iconId (toggleIconFavorite iconId s) = s ∧
    (toggleIconFavorite iconId s).emojis = s.emojis := by
  obtain ⟨ic, em⟩ := s
  by_cases h : iconId ∈ ic
  · refine ⟨?_, ?_, ?_⟩
    · simp [toggleIconFavorite, h, Finset.mem_erase]
    · simp [toggleIconFavorite, h, Finset.not_mem_erase, Finset.insert_erase h]
    · simp [toggleIconFavorite, h]
  · refine ⟨?_, ?_, ?_⟩
    · simp [toggleIconFavorite, h]
    · simp [toggleIconFavorite, h, Finset.mem_insert_self, Finset.erase_insert h]
    · simp [toggleIconFavorite, h]
